import Mathlib

/-!
# Verification of the automatic-zone-placement resolver core

Shallow embedding of `src/server.py`: the address parser (the subset of
Python's `ipaddress` module the server uses), the CIDR table and zone
lookup (`RequestHandler._get_zone_data`, `CIDR_MAPPINGS`), the bounded
TTL cache (`DNSCache` over `cachetools.TTLCache`), and the resolver
facade (`RequestHandler._get_ip_address` composed with the `do_GET`
lookup flow).

Machine integers do not occur; Python integers are unbounded, so `Nat`
is the faithful carrier.  Time is a `Nat` parameter passed explicitly
(the code reads `time.time()` / the cache timer at each call).
-/

namespace AZP

/-! ## Splitting, modelling Python `str.split(sep)` on character lists -/

/-- `str.split(sep)` for a single-character separator: always returns at
least one (possibly empty) piece, one more piece per separator occurrence. -/
def splitOnChar (sep : Char) : List Char → List (List Char)
  | [] => [[]]
  | c :: cs =>
    let r := splitOnChar sep cs
    if c = sep then [] :: r
    else
      match r with
      | [] => [[c]]
      | h :: t => (c :: h) :: t

/-! ## IPv4 parsing (`ipaddress.IPv4Address._parse_octet` / `_ip_int_from_string`) -/

/-- One dotted-quad octet: non-empty, ASCII digits only, at most 3 chars,
no leading zero (unless the octet is exactly "0"), value at most 255. -/
def parseOctet (l : List Char) : Option Nat :=
  if l.isEmpty then none
  else if !(l.all Char.isDigit) then none
  else if l.length > 3 then none
  else if l ≠ ['0'] && l.headD 'x' = '0' then none
  else
    let n := l.foldl (fun a c => a * 10 + (c.toNat - 48)) 0
    if n > 255 then none else some n

/-- `IPv4Address(addr_str)`: rejects '/', splits on '.', requires exactly
four octets. -/
def parseIPv4 (l : List Char) : Option Nat :=
  if l.contains '/' then none
  else
    match (splitOnChar '.' l).mapM parseOctet with
    | some [a, b, c, d] => some (((a * 256 + b) * 256 + c) * 256 + d)
    | _ => none

/-! ## IPv6 parsing (`ipaddress.IPv6Address._parse_hextet` / `_ip_int_from_string`) -/

def isHexChar (c : Char) : Bool :=
  c.isDigit || ('a' ≤ c && c ≤ 'f') || ('A' ≤ c && c ≤ 'F')

def hexVal (c : Char) : Nat :=
  if c.isDigit then c.toNat - 48
  else if 'a' ≤ c && c ≤ 'f' then c.toNat - 87
  else c.toNat - 55

/-- One hextet: hex digits only, non-empty, at most 4 chars. -/
def parseHextet (l : List Char) : Option Nat :=
  if !(l.all isHexChar) then none
  else if l.length > 4 then none
  else if l.isEmpty then none
  else some (l.foldl (fun a c => a * 16 + hexVal c) 0)

/-- Core of `IPv6Address._ip_int_from_string` after the embedded-IPv4
expansion: locate the at-most-one interior empty part (the `::`),
validate the boundary parts, and fold the hextets with the elided
zero groups in the middle. -/
def parseIPv6Parts (parts : List (List Char)) : Option Nat :=
  let n := parts.length
  if n > 9 then none
  else
    match (List.range n).filter
        (fun i => 0 < i && i + 1 < n && (parts.getD i ['x']).isEmpty) with
    | [] =>
      if n ≠ 8 then none
      else if (parts.getD 0 ['x']).isEmpty then none
      else if (parts.getD (n - 1) ['x']).isEmpty then none
      else (parts.mapM parseHextet).map (List.foldl (fun a h => a * 65536 + h) 0)
    | [i] =>
      (if (parts.getD 0 ['x']).isEmpty then
        if i - 1 ≠ 0 then none else some (i - 1)
      else some i).bind fun hi =>
      (if (parts.getD (n - 1) ['x']).isEmpty then
        if n - i - 1 - 1 ≠ 0 then none else some (n - i - 1 - 1)
      else some (n - i - 1)).bind fun lo =>
      if 8 ≤ hi + lo then none
      else
        (parts.take hi).mapM parseHextet |>.bind fun hs =>
        (parts.drop (n - lo)).mapM parseHextet |>.bind fun ls =>
        let hiv := hs.foldl (fun a h => a * 65536 + h) 0
        some (ls.foldl (fun a h => a * 65536 + h) (hiv * 65536 ^ (8 - (hi + lo))))
    | _ => none

/-- `IPv6Address._ip_int_from_string`: needs at least three ':'-parts; a
dotted last part is parsed as embedded IPv4 and re-expanded into two
hextets (formatted with `'%x'`, here `Nat.toDigits 16`). -/
def parseIPv6Core (l : List Char) : Option Nat :=
  let parts0 := splitOnChar ':' l
  if parts0.length < 3 then none
  else
    (if (parts0.getLastD []).contains '.' then
      (parseIPv4 (parts0.getLastD [])).map fun v4 =>
        parts0.dropLast ++ [Nat.toDigits 16 (v4 / 65536), Nat.toDigits 16 (v4 % 65536)]
    else some parts0).bind parseIPv6Parts

/-- `IPv6Address(addr_str)`: rejects '/', splits an optional zone scope
at the first '%' (scope must be non-empty and must not itself contain
'%'), then parses the address part. -/
def parseIPv6 (l : List Char) : Option Nat :=
  if l.contains '/' then none
  else
    match splitOnChar '%' l with
    | [addr] => parseIPv6Core addr
    | [addr, scope] => if scope.isEmpty then none else parseIPv6Core addr
    | _ => none

/-- A parsed address, `ipaddress.IPv4Address` or `ipaddress.IPv6Address`. -/
inductive IPAddr where
  | v4 (val : Nat)
  | v6 (val : Nat)
deriving DecidableEq, Repr

/-- `ipaddress.ip_address(s)`: try IPv4 first, then IPv6; `none` is the
`ValueError` outcome. -/
def parseIpAddress (s : String) : Option IPAddr :=
  match parseIPv4 s.data with
  | some v => some (.v4 v)
  | none => (parseIPv6 s.data).map .v6

/-! ## Networks and the CIDR table (`CIDR_MAPPINGS`, `_get_zone_data`) -/

/-- An `ipaddress.ip_network` value: version flag, network address
(host bits zero after the strict parse at startup) and the CIDR length. -/
structure Network where
  isV6 : Bool
  netaddr : Nat
  plen : Nat
deriving DecidableEq, Repr

/-- `address in network`: `False` across versions, otherwise
`int(address) & int(netmask) == int(network_address)`; clearing the low
`bits - plen` host bits is written with division and multiplication. -/
def netContains (net : Network) (ip : IPAddr) : Bool :=
  match ip with
  | .v4 a =>
    !net.isV6 && decide ((a / 2 ^ (32 - net.plen)) * 2 ^ (32 - net.plen) = net.netaddr)
  | .v6 a =>
    net.isV6 && decide ((a / 2 ^ (128 - net.plen)) * 2 ^ (128 - net.plen) = net.netaddr)

/-- The zone record stored per subnet: `AvailabilityZone`, `AvailabilityZoneId`. -/
structure ZoneData where
  az : String
  azId : String
deriving DecidableEq, Repr

/-- One loaded `{CIDRBlock, AvailabilityZone, AvailabilityZoneId}` record
after parsing, and equally one entry of the constructed table. -/
abbrev RangeRec := Network × ZoneData

/-- One step of the dict comprehension building `CIDR_MAPPINGS`: a Python
dict keyed by the network keeps the first occurrence's position but the
newly assigned value. -/
def insertMapping (tbl : List RangeRec) (e0 : RangeRec) : List RangeRec :=
  if tbl.any (fun e => e.1 == e0.1) then
    tbl.map (fun e => if e.1 == e0.1 then (e.1, e0.2) else e)
  else tbl ++ [e0]

/-- `CIDR_MAPPINGS = {ip_network(r["CIDRBlock"]): {...} for r in SUBNETS_DATA}`:
a dict built left to right from the loaded record sequence. -/
def buildMappings (recs : List RangeRec) : List RangeRec :=
  recs.foldl insertMapping []

/-- `RequestHandler._get_zone_data`: parse the string (a `ValueError`
is caught and yields `None`), then return the first table entry, in
table order, whose network contains the address. -/
def getZoneData (tbl : List RangeRec) (s : String) : Option ZoneData :=
  match parseIpAddress s with
  | some ip =>
    match tbl.find? (fun e => netContains e.1 ip) with
    | some e => some e.2
    | none => none
  | none => none

/-! ## The bounded TTL store (`cachetools.TTLCache` as used by `DNSCache`)

The store is a key-to-value map with one shared TTL; physically we keep
the entries as a list in least-recently-used order (front = LRU), each
entry `(fqdn, ip, expires)`.  Expired entries linger physically (the
library purges them on mutation) but every observation skips them. -/

abbrev TCEntry := String × String × Nat

/-- `TTLCache.expire(time)`: drop every entry whose `expires` is not in
the future. -/
def tcExpire (now : Nat) (es : List TCEntry) : List TCEntry :=
  es.filter (fun e => decide (now < e.2.2))

/-- `TTLCache.get(key)` (`Cache.get` over `TTLCache.__getitem__`): an
access moves the key's link to the most-recently-used end even when the
entry turns out to be expired; an expired or absent key yields `none`. -/
def tcGet (now : Nat) (k : String) (es : List TCEntry) :
    Option String × List TCEntry :=
  match es.find? (fun e => e.1 == k) with
  | none => (none, es)
  | some e =>
    let moved := es.filter (fun x => !(x.1 == k)) ++ [e]
    if now < e.2.2 then (some e.2.1, moved) else (none, moved)

/-- `key in ttlcache` (`TTLCache.__contains__`): present and unexpired. -/
def tcContains (now : Nat) (k : String) (es : List TCEntry) : Bool :=
  match es.find? (fun e => e.1 == k) with
  | some e => decide (now < e.2.2)
  | none => false

/-- `ttlcache.pop(key, None)` (`Cache.pop`): removes the entry only when
`key in self` holds, i.e. when it is present and unexpired. -/
def tcPop (now : Nat) (k : String) (es : List TCEntry) : List TCEntry :=
  if tcContains now k es then es.filter (fun x => !(x.1 == k)) else es

/-- `ttlcache[key] = value` (`TTLCache.__setitem__`): purge expired
entries, then — for a fresh key only — evict from the LRU front while the
insertion would exceed `maxsize`, then (re)insert at the MRU end with
`expires = now + ttl`. -/
def tcSet (now : Nat) (k v : String) (m ttl : Nat) (es : List TCEntry) :
    List TCEntry :=
  let es1 := tcExpire now es
  if es1.any (fun e => e.1 == k) then
    es1.filter (fun x => !(x.1 == k)) ++ [(k, v, now + ttl)]
  else
    (es1.drop (es1.length + 1 - m)) ++ [(k, v, now + ttl)]

/-! ## `DNSCache` -/

/-- `DNSCache`: the `TTLCache` (`tcache`), the custom-TTL side table
(`_custom_ttls`, here `custom`, mapping fqdn to its absolute expiry), the
configured default TTL and maximum size, and the two Prometheus counters
the cache increments (`dns_cache_hits_total`, `dns_cache_misses_total`). -/
structure DNSCache where
  maxsize : Nat
  ttl : Nat
  tcache : List TCEntry
  custom : List (String × Nat)
  hits : Nat
  misses : Nat
deriving DecidableEq, Repr

/-- A freshly constructed `DNSCache(maxsize, ttl)`. -/
def dnsInit (m ttl : Nat) : DNSCache := ⟨m, ttl, [], [], 0, 0⟩

/-- The shared tail of `DNSCache.get`: read the `TTLCache`, count a hit
or a miss. -/
def dnsGetCore (now : Nat) (k : String) (dc : DNSCache) :
    Option String × DNSCache :=
  match tcGet now k dc.tcache with
  | (some ip, tc1) => (some ip, { dc with tcache := tc1, hits := dc.hits + 1 })
  | (none, tc1) => (none, { dc with tcache := tc1, misses := dc.misses + 1 })

/-- `DNSCache.get(fqdn)`: an entry in `_custom_ttls` whose expiry has
been reached (`time.time() >= expiry_time`) is dropped from both maps
and counted as a miss; otherwise the `TTLCache` answers. -/
def dnsGet (now : Nat) (k : String) (dc : DNSCache) :
    Option String × DNSCache :=
  match dc.custom.find? (fun e => e.1 == k) with
  | some ce =>
    if ce.2 ≤ now then
      (none, { dc with
        custom := dc.custom.filter (fun e => !(e.1 == k)),
        tcache := tcPop now k dc.tcache,
        misses := dc.misses + 1 })
    else dnsGetCore now k dc
  | none => dnsGetCore now k dc

/-- `DNSCache.set(fqdn, ip, ttl)`: store in the `TTLCache` (always at the
default TTL — the library has one shared TTL); record the custom expiry
`now + ttl` only when a TTL was passed and differs from the default,
otherwise remove any custom-TTL record for the key. -/
def dnsSet (now : Nat) (k v : String) (ttlOpt : Option Nat) (dc : DNSCache) :
    DNSCache :=
  let tc1 := tcSet now k v dc.maxsize dc.ttl dc.tcache
  let custom1 :=
    match ttlOpt with
    | some t =>
      if t ≠ dc.ttl then
        (dc.custom.filter (fun e => !(e.1 == k))) ++ [(k, now + t)]
      else dc.custom.filter (fun e => !(e.1 == k))
    | none => dc.custom.filter (fun e => !(e.1 == k))
  { dc with tcache := tc1, custom := custom1 }

/-- `DNSCache.reset()`: clear both maps. -/
def dnsReset (dc : DNSCache) : DNSCache :=
  { dc with tcache := [], custom := [] }

/-- `stats()['total_entries'] = len(self.cache)`: `TTLCache.__len__`
counts only unexpired entries. -/
def statsTotal (now : Nat) (dc : DNSCache) : Nat :=
  (tcExpire now dc.tcache).length

/-- `stats()['entries'] = list(self.cache.keys())`: iteration skips
expired entries. -/
def statsKeys (now : Nat) (dc : DNSCache) : List String :=
  (tcExpire now dc.tcache).map (fun e => e.1)

/-! ## Mutating operation sequences on the cache -/

/-- One external mutating call on the cache, with the wall-clock instant
at which it happens. -/
inductive CacheOp where
  | get (t : Nat) (k : String)
  | set (t : Nat) (k : String) (v : String) (ttl : Option Nat)
  | reset
deriving Repr

def applyOp (dc : DNSCache) : CacheOp → DNSCache
  | .get t k => (dnsGet t k dc).2
  | .set t k v ttl => dnsSet t k v ttl dc
  | .reset => dnsReset dc

def runOps (dc : DNSCache) (ops : List CacheOp) : DNSCache :=
  ops.foldl applyOp dc

/-! ## The resolver facade (`_get_ip_address` and the `do_GET` lookup flow) -/

/-- Python string truthiness of the cache answer: `if ip_address:`. -/
def truthy : Option String → Bool
  | none => false
  | some s => !s.isEmpty

/-- `RequestHandler._get_ip_address(fqdn)` with the external resolution
capability `r` (`socket.gethostbyname`; `none` is the `socket.gaierror`
outcome) made explicit.  Returns the outcome, the cache afterwards, and
how often `r` was invoked. -/
def getIpAddress (r : String → Option String) (t : Nat) (k : String)
    (dc : DNSCache) : Except Unit String × DNSCache × Nat :=
  let (ipOpt, dc1) := dnsGet t k dc
  if truthy ipOpt then
    (.ok (ipOpt.getD ""), dc1, 0)
  else
    match r k with
    | some ip => (.ok ip, dnsSet t k ip none dc1, 1)
    | none => (.error (), dc1, 1)

/-- The tagged outcome of a lookup, §3 of the spec.  `invalidInput` is
declared for comparison with the specification; the handler below never
produces it. -/
inductive ResolutionResult where
  | zone (d : ZoneData)
  | notFound
  | invalidInput
  | resolutionFailed
deriving DecidableEq, Repr

/-- The `do_GET` lookup flow for a non-empty fqdn path: resolve the name
(a `socket.gaierror` is caught and answered as 404 "FQDN not found", the
`resolutionFailed` outcome), then match the address against the table
(`None` is answered as 404 "Zone not found", the `notFound` outcome). -/
def resolveName (r : String → Option String) (tbl : List RangeRec) (t : Nat)
    (k : String) (dc : DNSCache) : ResolutionResult × DNSCache × Nat :=
  match getIpAddress r t k dc with
  | (.error _, dc1, n) => (.resolutionFailed, dc1, n)
  | (.ok ip, dc1, n) =>
    match getZoneData tbl ip with
    | some d => (.zone d, dc1, n)
    | none => (.notFound, dc1, n)

/-! ## Shared helper lemmas -/

theorem find?_append_of_all_neg {α : Type} {p : α → Bool} {l1 l2 : List α}
    (h : ∀ x ∈ l1, p x = false) :
    List.find? p (l1 ++ l2) = List.find? p l2 := by
  induction l1 with
  | nil => rfl
  | cons a l ih =>
    have ha : ¬ p a = true := by simp [h a (by simp)]
    rw [List.cons_append, List.find?_cons_of_neg _ ha]
    exact ih (fun x hx => h x (by simp [hx]))

theorem find?_cons_eq {α : Type} (p : α → Bool) (a : α) (l : List α) :
    List.find? p (a :: l) = if p a then some a else List.find? p l := by
  by_cases hp : p a = true
  · rw [List.find?_cons_of_pos l hp, if_pos hp]
  · rw [List.find?_cons_of_neg l hp, if_neg hp]

/-- Removing all entries of one key does not disturb the lookup of a
different key. -/
theorem find?_filter_ne {β : Type} (k k' : String) (h : k' ≠ k)
    (l : List (String × β)) :
    List.find? (fun e => e.1 == k') (l.filter (fun x => !(x.1 == k))) =
      List.find? (fun e => e.1 == k') l := by
  induction l with
  | nil => rfl
  | cons a l ih =>
    rw [List.filter_cons]
    by_cases hak : a.1 = k
    · have h2 : (a.1 == k') = false := by
        simp only [beq_eq_false_iff_ne, ne_eq, hak]
        exact fun hc => h hc.symm
      have hcond : (!(a.1 == k)) = false := by simp [hak]
      rw [hcond, if_neg (by simp), find?_cons_eq]
      simp only [h2, Bool.false_eq_true, if_false]
      exact ih
    · have hcond : (!(a.1 == k)) = true := by simp [hak]
      rw [hcond, if_pos rfl, find?_cons_eq, find?_cons_eq, ih]

theorem find?_filter_self_none {β : Type} (k : String) (l : List (String × β)) :
    List.find? (fun e => e.1 == k) (l.filter (fun x => !(x.1 == k))) = none := by
  rw [List.find?_eq_none]
  intro x hx
  have := (List.mem_filter.mp hx).2
  simp only [Bool.not_eq_true'] at this
  simp [this]

theorem find?_snoc_self {β : Type} (k : String) (b : β)
    {l : List (String × β)} (h : ∀ x ∈ l, (x.1 == k) = false) :
    List.find? (fun e => e.1 == k) (l ++ [(k, b)]) = some (k, b) := by
  rw [find?_append_of_all_neg h, find?_cons_eq, if_pos (by simp)]

/-- After `tcSet`, the store is a `k`-free part followed by the fresh
entry `(k, v, now + ttl)` at the MRU end. -/
theorem tcSet_shape (now : Nat) (k v : String) (m ttl : Nat)
    (es : List TCEntry) :
    ∃ es2, tcSet now k v m ttl es = es2 ++ [(k, v, now + ttl)] ∧
      ∀ x ∈ es2, (x.1 == k) = false := by
  unfold tcSet
  by_cases h : (tcExpire now es).any (fun e => e.1 == k)
  · refine ⟨(tcExpire now es).filter (fun x => !(x.1 == k)), by simp [h], ?_⟩
    intro x hx
    have := (List.mem_filter.mp hx).2
    simpa using this
  · rw [Bool.not_eq_true] at h
    refine ⟨(tcExpire now es).drop ((tcExpire now es).length + 1 - m),
      by simp [h], ?_⟩
    intro x hx
    have hx2 := List.drop_subset _ _ hx
    have := List.any_eq_false.mp h x hx2
    simpa using this

theorem dnsGet_maxsize (now : Nat) (k : String) (dc : DNSCache) :
    (dnsGet now k dc).2.maxsize = dc.maxsize := by
  unfold dnsGet dnsGetCore
  cases h : dc.custom.find? (fun e => e.1 == k) with
  | none => cases htc : tcGet now k dc.tcache with
    | mk o tc1 => cases o <;> simp
  | some ce =>
    by_cases hce : ce.2 ≤ now
    · simp [hce]
    · cases htc : tcGet now k dc.tcache with
      | mk o tc1 => cases o <;> simp [hce]

theorem dnsGet_ttl (now : Nat) (k : String) (dc : DNSCache) :
    (dnsGet now k dc).2.ttl = dc.ttl := by
  unfold dnsGet dnsGetCore
  cases h : dc.custom.find? (fun e => e.1 == k) with
  | none => cases htc : tcGet now k dc.tcache with
    | mk o tc1 => cases o <;> simp
  | some ce =>
    by_cases hce : ce.2 ≤ now
    · simp [hce]
    · cases htc : tcGet now k dc.tcache with
      | mk o tc1 => cases o <;> simp [hce]

/-! ## The table of the spec's range-precedence example -/

/-- `[192.168.0.0/19 -> zoneB, 192.168.32.0/19 -> zoneA]` in that order. -/
def specTable : List RangeRec :=
  [(⟨false, 3232235520, 19⟩, ⟨"zoneB", "idB"⟩),
   (⟨false, 3232243712, 19⟩, ⟨"zoneA", "idA"⟩)]

/-! ## C1 -/

/-- C1: for every address and every range table, `_get_zone_data` parses
the address and returns the zone record of the first range in table
order whose network encloses the address, and `none` when no range
encloses it (first-match-in-table-order, not longest-prefix-match). -/
theorem c1_first_match_in_table_order (tbl : List RangeRec) (s : String)
    (ip : IPAddr) (hp : parseIpAddress s = some ip) :
    (∀ pre e post, tbl = pre ++ e :: post →
      (∀ e2 ∈ pre, netContains e2.1 ip = false) →
      netContains e.1 ip = true →
      getZoneData tbl s = some e.2) ∧
    ((∀ e ∈ tbl, netContains e.1 ip = false) → getZoneData tbl s = none) := by
  constructor
  · intro pre e post htbl hpre he
    have hf : tbl.find? (fun x => netContains x.1 ip) = some e := by
      rw [htbl, find?_append_of_all_neg (fun x hx => hpre x hx),
        find?_cons_eq, if_pos he]
    simp [getZoneData, hp, hf]
  · intro hall
    have hf : tbl.find? (fun x => netContains x.1 ip) = none :=
      List.find?_eq_none.mpr (by intro x hx; simp [hall x hx])
    simp [getZoneData, hp, hf]

/-- Witness for C1: the spec's range-precedence example, with the two
/19 ranges overlapping neither each other nor 10.0.0.1. -/
theorem c1_first_match_in_table_order_witness :
    getZoneData specTable "192.168.1.1" = some ⟨"zoneB", "idB"⟩ ∧
    getZoneData specTable "192.168.33.1" = some ⟨"zoneA", "idA"⟩ ∧
    getZoneData specTable "10.0.0.1" = none := by
  refine ⟨?_, ?_, ?_⟩
  · exact (c1_first_match_in_table_order specTable "192.168.1.1"
      (.v4 3232235777) (by decide)).1 []
      (⟨false, 3232235520, 19⟩, ⟨"zoneB", "idB"⟩)
      [(⟨false, 3232243712, 19⟩, ⟨"zoneA", "idA"⟩)] rfl (by decide) (by decide)
  · exact (c1_first_match_in_table_order specTable "192.168.33.1"
      (.v4 3232243969) (by decide)).1
      [(⟨false, 3232235520, 19⟩, ⟨"zoneB", "idB"⟩)]
      (⟨false, 3232243712, 19⟩, ⟨"zoneA", "idA"⟩) [] rfl (by decide) (by decide)
  · exact (c1_first_match_in_table_order specTable "10.0.0.1"
      (.v4 167772161) (by decide)).2 (by decide)

/-! ## C9 -/

/-- C9: the zone lookup is total over arbitrary strings: every input
yields either a zone record taken from the table or `none`, and a string
that does not parse as an address (the caught `ValueError` branch) always
yields `none`. -/
theorem c9_zone_lookup_total (tbl : List RangeRec) (s : String) :
    (parseIpAddress s = none → getZoneData tbl s = none) ∧
    ((∃ e ∈ tbl, getZoneData tbl s = some e.2) ∨ getZoneData tbl s = none) := by
  constructor
  · intro hp
    simp [getZoneData, hp]
  · cases hp : parseIpAddress s with
    | none => exact Or.inr (by simp [getZoneData, hp])
    | some ip =>
      cases hf : tbl.find? (fun e => netContains e.1 ip) with
      | none => exact Or.inr (by simp [getZoneData, hp, hf])
      | some e =>
        exact Or.inl ⟨e, List.mem_of_find?_eq_some hf,
          by simp [getZoneData, hp, hf]⟩

/-- Witness for C9: "256.1.1.1" is rejected by the address parser (octet
above 255, and not an IPv6 literal either), so the lookup answers `none`
rather than failing. -/
theorem c9_zone_lookup_total_witness :
    parseIpAddress "256.1.1.1" = none ∧
    getZoneData specTable "256.1.1.1" = none ∧
    getZoneData specTable "not a hostname!" = none := by
  refine ⟨by decide, ?_, ?_⟩
  · exact (c9_zone_lookup_total specTable "256.1.1.1").1 (by decide)
  · exact (c9_zone_lookup_total specTable "not a hostname!").1 (by decide)

/-! ## C8: the dict comprehension building `CIDR_MAPPINGS` -/

/-- `find?` through the value replacement performed on an existing dict
key: keys are untouched, so the search commutes with the replacement. -/
theorem find?_map_replace (tbl : List RangeRec) (e0 : RangeRec)
    (net : Network) :
    (tbl.map (fun e => if e.1 == e0.1 then (e.1, e0.2) else e)).find?
        (fun e => e.1 == net) =
      (tbl.find? (fun e => e.1 == net)).map
        (fun x => if x.1 == e0.1 then (x.1, e0.2) else x) := by
  induction tbl with
  | nil => rfl
  | cons a l ih =>
    have hfst : (if a.1 == e0.1 then (a.1, e0.2) else a).1 = a.1 := by
      by_cases he : a.1 = e0.1 <;> simp [he]
    rw [List.map_cons, find?_cons_eq, find?_cons_eq, hfst]
    by_cases ha : a.1 = net
    · have hbeq : (a.1 == net) = true := by simp [ha]
      rw [hbeq, if_pos rfl, if_pos rfl]
      rfl
    · have hbeq : (a.1 == net) = false := by simp [ha]
      rw [hbeq, if_neg (by simp), if_neg (by simp), ih]

/-- One dict assignment, seen through `find?`: the assigned key now maps
to the new value, all other keys are untouched. -/
theorem insertMapping_find? (tbl : List RangeRec) (e0 : RangeRec)
    (net : Network) :
    (insertMapping tbl e0).find? (fun e => e.1 == net) =
      if net = e0.1 then some (net, e0.2)
      else tbl.find? (fun e => e.1 == net) := by
  unfold insertMapping
  by_cases hc : tbl.any (fun e => e.1 == e0.1)
  · rw [if_pos hc, find?_map_replace]
    by_cases hn : net = e0.1
    · rw [if_pos hn]
      cases hf : tbl.find? (fun e => e.1 == net) with
      | none =>
        exfalso
        obtain ⟨y, hy, hpy⟩ := List.any_eq_true.mp hc
        have hyk : y.1 = e0.1 := by simpa using hpy
        have hnone := List.find?_eq_none.mp hf y hy
        simp [hyk, hn] at hnone
      | some x =>
        have hx1 : x.1 = net := by simpa using List.find?_some hf
        simp [hx1, hn]
    · rw [if_neg hn]
      cases hf : tbl.find? (fun e => e.1 == net) with
      | none => rfl
      | some x =>
        have hx1 : x.1 = net := by simpa using List.find?_some hf
        have hxe : ¬ x.1 = e0.1 := by rw [hx1]; exact hn
        simp [hxe]
  · rw [Bool.not_eq_true] at hc
    rw [if_neg (by simp [hc]), List.find?_append]
    have hall := List.any_eq_false.mp hc
    by_cases hn : net = e0.1
    · rw [if_pos hn]
      have hnone : tbl.find? (fun e => e.1 == net) = none := by
        rw [List.find?_eq_none]
        intro x hx
        have hx1 := hall x hx
        simp only [beq_iff_eq] at hx1 ⊢
        rw [hn]
        exact hx1
      rw [hnone, Option.none_or, find?_cons_eq, if_pos (by simp [hn]), hn]
    · rw [if_neg hn]
      have h1 : List.find? (fun e => e.1 == net) [e0] = none := by
        rw [find?_cons_eq, if_neg (by
          simp only [beq_iff_eq]
          exact fun hcon => hn hcon.symm)]
        rfl
      rw [h1, Option.or_none]

/-- `find?` through the whole dict build: the value recorded for a key
is the one of the last loaded record with that key. -/
theorem foldl_insertMapping_find? (recs : List RangeRec)
    (acc : List RangeRec) (net : Network) :
    (recs.foldl insertMapping acc).find? (fun e => e.1 == net) =
      match recs.reverse.find? (fun e => e.1 == net) with
      | some x => some (net, x.2)
      | none => acc.find? (fun e => e.1 == net) := by
  induction recs generalizing acc with
  | nil => rfl
  | cons a rs ih =>
    rw [List.foldl_cons, ih (insertMapping acc a), List.reverse_cons,
      List.find?_append]
    cases h : rs.reverse.find? (fun e => e.1 == net) with
    | some x => simp
    | none =>
      simp only [Option.none_or]
      rw [insertMapping_find?]
      by_cases hn : net = a.1
      · rw [if_pos hn, find?_cons_eq, if_pos (by simp [hn]), hn]
      · rw [if_neg hn, find?_cons_eq, if_neg (by
          simp only [beq_iff_eq]
          exact fun hcon => hn hcon.symm)]
        rfl

theorem buildMappings_find? (recs : List RangeRec) (net : Network) :
    (buildMappings recs).find? (fun e => e.1 == net) =
      match recs.reverse.find? (fun e => e.1 == net) with
      | some x => some (net, x.2)
      | none => none :=
  foldl_insertMapping_find? recs [] net

/-- Every key of the built dict is the key of some loaded record. -/
theorem keys_foldl_insertMapping (recs : List RangeRec)
    (acc : List RangeRec) :
    ∀ e ∈ recs.foldl insertMapping acc,
      e.1 ∈ acc.map (fun x => x.1) ∨ e.1 ∈ recs.map (fun x => x.1) := by
  induction recs generalizing acc with
  | nil =>
    intro e he
    exact Or.inl (List.mem_map_of_mem _ he)
  | cons a rs ih =>
    intro e he
    rcases ih (insertMapping acc a) e he with h1 | h2
    · unfold insertMapping at h1
      by_cases hc : acc.any (fun x => x.1 == a.1)
      · rw [if_pos hc, List.map_map] at h1
        have hkeys : acc.map ((fun x => x.1) ∘
            (fun x => if x.1 == a.1 then (x.1, a.2) else x)) =
            acc.map (fun x => x.1) :=
          List.map_congr_left (fun z hz => by
            by_cases h2 : z.1 = a.1 <;> simp [h2])
        rw [hkeys] at h1
        exact Or.inl h1
      · rw [if_neg hc, List.map_append] at h1
        rcases List.mem_append.mp h1 with h3 | h4
        · exact Or.inl h3
        · right
          simp only [List.map_cons, List.mem_cons]
          simp at h4
          exact Or.inl h4
    · right
      simp only [List.map_cons, List.mem_cons]
      exact Or.inr h2

/-- The built dict has no duplicate keys. -/
theorem nodup_keys_insertMapping (tbl : List RangeRec) (e0 : RangeRec)
    (h : (tbl.map (fun e => e.1)).Nodup) :
    ((insertMapping tbl e0).map (fun e => e.1)).Nodup := by
  unfold insertMapping
  by_cases hc : tbl.any (fun e => e.1 == e0.1)
  · rw [if_pos hc]
    have hkeys : (tbl.map (fun e => if e.1 == e0.1 then (e.1, e0.2) else e)).map
        (fun e => e.1) = tbl.map (fun e => e.1) := by
      rw [List.map_map]
      exact List.map_congr_left (fun a ha => by
        by_cases h2 : a.1 = e0.1 <;> simp [h2])
    rw [hkeys]
    exact h
  · rw [Bool.not_eq_true] at hc
    rw [if_neg (by simp [hc]), List.map_append, List.nodup_append]
    refine ⟨h, by simp, ?_⟩
    intro x hx hx2
    simp only [List.map_cons, List.map_nil, List.mem_singleton] at hx2
    subst hx2
    obtain ⟨y, hy, hyk⟩ := List.mem_map.mp hx
    have := List.any_eq_false.mp hc y hy
    simp [hyk] at this

theorem nodup_keys_buildMappings (recs : List RangeRec) :
    ((buildMappings recs).map (fun e => e.1)).Nodup := by
  have haux : ∀ (rs acc : List RangeRec),
      (acc.map (fun e => e.1)).Nodup →
      ((rs.foldl insertMapping acc).map (fun e => e.1)).Nodup := by
    intro rs
    induction rs with
    | nil => intro acc hacc; exact hacc
    | cons a rs2 ih =>
      intro acc hacc
      exact ih (insertMapping acc a) (nodup_keys_insertMapping acc a hacc)
  exact haux recs [] (by simp)

/-- With duplicate-free keys, an entry present in an association list is
exactly what filtering on its key yields. -/
theorem filter_key_of_nodup {κ β : Type} [DecidableEq κ]
    {l : List (κ × β)} {net : κ} {b : β}
    (hnd : (l.map (fun e => e.1)).Nodup) (hmem : (net, b) ∈ l) :
    l.filter (fun e => e.1 == net) = [(net, b)] := by
  induction l with
  | nil => cases hmem
  | cons a l ih =>
    rw [List.map_cons, List.nodup_cons] at hnd
    obtain ⟨hh, ht⟩ := hnd
    rw [List.filter_cons]
    rcases List.mem_cons.mp hmem with h1 | h2
    · cases h1.symm
      rw [if_pos (by simp)]
      have hfl : l.filter (fun e => e.1 == net) = [] := by
        rw [List.filter_eq_nil_iff]
        intro x hx
        simp only [beq_iff_eq]
        intro hxe
        exact hh (hxe ▸ List.mem_map_of_mem (fun e => e.1) hx)
      rw [hfl]
    · have hne : ¬ ((a.1 == net) = true) := by
        simp only [beq_iff_eq]
        intro hae
        have : net ∈ l.map (fun e => e.1) :=
          List.mem_map_of_mem (fun e => e.1) h2
        exact hh (hae ▸ this)
      rw [if_neg hne]
      exact ih ht h2

/-- When the given key's range is the only one in the table enclosing
the address, the first-match scan lands on that key's (unique) entry. -/
theorem find?_contains_of_unique (tbl : List RangeRec) (net : Network)
    (d : ZoneData) (ip : IPAddr)
    (hnd : (tbl.map (fun e => e.1)).Nodup)
    (hmem : (net, d) ∈ tbl)
    (hc : netContains net ip = true)
    (honly : ∀ e ∈ tbl, netContains e.1 ip = true → e.1 = net) :
    tbl.find? (fun e => netContains e.1 ip) = some (net, d) := by
  induction tbl with
  | nil => cases hmem
  | cons a l ih =>
    rw [List.map_cons, List.nodup_cons] at hnd
    rw [find?_cons_eq]
    by_cases hpa : netContains a.1 ip = true
    · rw [if_pos hpa]
      have hkey : a.1 = net := honly a (by simp) hpa
      rcases List.mem_cons.mp hmem with h1 | h2
      · rw [h1]
      · exact absurd (hkey ▸ List.mem_map_of_mem (fun e => e.1) h2) hnd.1
    · rw [if_neg hpa]
      have hmem2 : (net, d) ∈ l := by
        rcases List.mem_cons.mp hmem with h1 | h2
        · exfalso
          apply hpa
          rw [← h1]
          exact hc
        · exact h2
      exact ih hnd.2 hmem2 (fun e he hp => honly e (by simp [he]) hp)

/-- C8: when the loaded record sequence holds several records with the
same CIDR block, the built table keeps a single entry for that network —
positioned where the block first occurred but carrying the *last* such
record's zone data — and an address enclosed (among the loaded ranges)
only by that block is looked up to the last record's zone data. -/
theorem c8_duplicate_cidr_last_record_wins (recs : List RangeRec)
    (net : Network) (x : RangeRec)
    (hlast : recs.reverse.find? (fun e => e.1 == net) = some x) :
    (buildMappings recs).find? (fun e => e.1 == net) = some (net, x.2) ∧
    ((buildMappings recs).filter (fun e => e.1 == net)).length = 1 ∧
    (∀ s ip, parseIpAddress s = some ip → netContains net ip = true →
      (∀ e ∈ recs, netContains e.1 ip = true → e.1 = net) →
      getZoneData (buildMappings recs) s = some x.2) := by
  have hfind : (buildMappings recs).find? (fun e => e.1 == net) =
      some (net, x.2) := by
    rw [buildMappings_find?, hlast]
  refine ⟨hfind, ?_, ?_⟩
  · rw [filter_key_of_nodup (nodup_keys_buildMappings recs)
      (List.mem_of_find?_eq_some hfind)]
    rfl
  · intro s ip hp hcont honly
    have honly2 : ∀ e ∈ buildMappings recs, netContains e.1 ip = true →
        e.1 = net := by
      intro e he hpe
      rcases keys_foldl_insertMapping recs [] e he with h1 | h2
      · cases h1
      · obtain ⟨y, hy, hyk⟩ := List.mem_map.mp h2
        exact hyk ▸ honly y hy (by rw [hyk]; exact hpe)
    have hscan := find?_contains_of_unique (buildMappings recs) net x.2 ip
      (nodup_keys_buildMappings recs) (List.mem_of_find?_eq_some hfind)
      hcont honly2
    simp [getZoneData, hp, hscan]

/-- Witness for C8: `192.168.32.0/19` occurs twice; the table keeps one
entry for it, with the second record's zone, and `192.168.33.1` (enclosed
only by that block) resolves to the second record's zone. -/
theorem c8_duplicate_cidr_last_record_wins_witness :
    (buildMappings [(⟨false, 3232235520, 19⟩, ⟨"zoneB", "idB"⟩),
        (⟨false, 3232243712, 19⟩, ⟨"first", "id1"⟩),
        (⟨false, 3232243712, 19⟩, ⟨"second", "id2"⟩)]).find?
      (fun e => e.1 == ⟨false, 3232243712, 19⟩) =
      some (⟨false, 3232243712, 19⟩, ⟨"second", "id2"⟩) ∧
    ((buildMappings [(⟨false, 3232235520, 19⟩, ⟨"zoneB", "idB"⟩),
        (⟨false, 3232243712, 19⟩, ⟨"first", "id1"⟩),
        (⟨false, 3232243712, 19⟩, ⟨"second", "id2"⟩)]).filter
      (fun e => e.1 == ⟨false, 3232243712, 19⟩)).length = 1 ∧
    getZoneData (buildMappings [(⟨false, 3232235520, 19⟩, ⟨"zoneB", "idB"⟩),
        (⟨false, 3232243712, 19⟩, ⟨"first", "id1"⟩),
        (⟨false, 3232243712, 19⟩, ⟨"second", "id2"⟩)]) "192.168.33.1" =
      some ⟨"second", "id2"⟩ := by
  obtain ⟨h1, h2, h3⟩ := c8_duplicate_cidr_last_record_wins
    [(⟨false, 3232235520, 19⟩, ⟨"zoneB", "idB"⟩),
     (⟨false, 3232243712, 19⟩, ⟨"first", "id1"⟩),
     (⟨false, 3232243712, 19⟩, ⟨"second", "id2"⟩)]
    ⟨false, 3232243712, 19⟩ (⟨false, 3232243712, 19⟩, ⟨"second", "id2"⟩)
    (by decide)
  exact ⟨h1, h2, h3 "192.168.33.1" (.v4 3232243969) (by decide) (by decide)
    (by decide)⟩

/-! ## Cache well-formedness

The two Python dicts backing the cache cannot hold a key twice; the
association lists of reachable model states never do either. -/

/-- Both maps of the cache have duplicate-free key lists. -/
def WF (dc : DNSCache) : Prop :=
  (dc.tcache.map (fun e => e.1)).Nodup ∧ (dc.custom.map (fun e => e.1)).Nodup

/-- With duplicate-free keys, a member with key `k` is what `find?` on
`k` returns. -/
theorem find?_key_of_nodup_mem {κ β : Type} [DecidableEq κ]
    {l : List (κ × β)} {k : κ} {b : β}
    (hnd : (l.map (fun e => e.1)).Nodup) (hmem : (k, b) ∈ l) :
    l.find? (fun e => e.1 == k) = some (k, b) := by
  induction l with
  | nil => cases hmem
  | cons a l ih =>
    rw [List.map_cons, List.nodup_cons] at hnd
    obtain ⟨hh, ht⟩ := hnd
    rw [find?_cons_eq]
    rcases List.mem_cons.mp hmem with h1 | h2
    · cases h1.symm
      rw [if_pos (by simp)]
    · have hne : ¬ ((a.1 == k) = true) := by
        simp only [beq_iff_eq]
        intro hae
        exact hh (hae ▸ List.mem_map_of_mem (fun e => e.1) h2)
      rw [if_neg hne]
      exact ih ht h2

/-- With duplicate-free keys, two members sharing a key coincide. -/
theorem key_eq_of_nodup {κ β : Type} [DecidableEq κ]
    {l : List (κ × β)} {x y : κ × β}
    (hnd : (l.map (fun e => e.1)).Nodup) (hx : x ∈ l) (hy : y ∈ l)
    (hk : x.1 = y.1) : x = y := by
  have hfx : l.find? (fun e => e.1 == x.1) = some (x.1, x.2) :=
    find?_key_of_nodup_mem hnd hx
  have hfy : l.find? (fun e => e.1 == y.1) = some (y.1, y.2) :=
    find?_key_of_nodup_mem hnd hy
  rw [hk] at hfx
  have := hfx.symm.trans hfy
  have hx2 : x.2 = y.2 := congrArg (fun o => (o.getD (y.1, y.2)).2) this
  exact Prod.ext hk hx2

/-! ## C3 -/

/-- C3 counterexample: with default TTL 300 the claim predicts that an
entry stored with custom TTL 600 is still returned at `t = 400 < 600`;
the code misses, because the backing `TTLCache` expired it at the default
TTL.  (At `t = 200` the entry is still returned, so it was stored.) -/
theorem c3_custom_ttl_counterexample :
    (dnsGet 200 "k" (dnsSet 0 "k" "v" (some 600) (dnsInit 1000 300))).1 =
      some "v" ∧
    (dnsGet 400 "k" (dnsSet 0 "k" "v" (some 600) (dnsInit 1000 300))).1 =
      none ∧
    (400 : Nat) < 0 + 600 := by
  refine ⟨by decide, by decide, by decide⟩

/-- C3 amended: after `set(k, v, ttl)` at `t0` the entry behaves as if
its expiry were `t0 + min ttl defaultTTL` — a custom TTL below the
default takes effect, a custom TTL above it is capped by the backing
store's shared default TTL.  Reads strictly before that instant (with no
intervening operation) return `v`; and an entry stored at the default
TTL is unaffected by another key's custom TTL. -/
theorem c3_amended_effective_expiry_is_min :
    (∀ (dc : DNSCache) (k v : String) (ttl t0 t : Nat),
      t < t0 + min ttl dc.ttl →
      (dnsGet t k (dnsSet t0 k v (some ttl) dc)).1 = some v) ∧
    (∀ (m ttl : Nat) (k k2 v v2 : String) (cttl t : Nat),
      k ≠ k2 → 2 ≤ m → t < ttl →
      (dnsGet t k
        (dnsSet 0 k2 v2 (some cttl)
          (dnsSet 0 k v none (dnsInit m ttl)))).1 = some v) := by
  constructor
  · intro dc k v ttl t0 t ht
    obtain ⟨es2, hes2, hfree⟩ :=
      tcSet_shape t0 k v dc.maxsize dc.ttl dc.tcache
    have hcustomdef : (dnsSet t0 k v (some ttl) dc).custom =
        if ttl ≠ dc.ttl then
          (dc.custom.filter (fun e => !(e.1 == k))) ++ [(k, t0 + ttl)]
        else dc.custom.filter (fun e => !(e.1 == k)) := rfl
    have htcache2 : (dnsSet t0 k v (some ttl) dc).tcache =
        es2 ++ [(k, v, t0 + dc.ttl)] := hes2
    have htdef : t < t0 + dc.ttl := by
      have := Nat.min_le_right ttl dc.ttl
      omega
    have hfind : (dnsSet t0 k v (some ttl) dc).tcache.find?
        (fun e => e.1 == k) = some (k, v, t0 + dc.ttl) := by
      rw [htcache2]
      exact find?_snoc_self k (v, t0 + dc.ttl) hfree
    have hcore : (dnsGetCore t k (dnsSet t0 k v (some ttl) dc)).1 = some v := by
      simp [dnsGetCore, tcGet, hfind, htdef]
    by_cases httl : ttl = dc.ttl
    · have hcf : (dnsSet t0 k v (some ttl) dc).custom.find?
          (fun e => e.1 == k) = none := by
        rw [hcustomdef, if_neg (by simp [httl])]
        exact find?_filter_self_none k dc.custom
      simp only [dnsGet, hcf]
      exact hcore
    · have hcf : (dnsSet t0 k v (some ttl) dc).custom.find?
          (fun e => e.1 == k) = some (k, t0 + ttl) := by
        rw [hcustomdef, if_pos httl]
        apply find?_snoc_self
        intro x hx
        have h3 := (List.mem_filter.mp hx).2
        simpa using h3
      have hnotexp : ¬ (t0 + ttl ≤ t) := by
        have := Nat.min_le_left ttl dc.ttl
        omega
      simp only [dnsGet, hcf, if_neg hnotexp]
      exact hcore
  · intro m ttl k k2 v v2 cttl t hk hm ht
    have h0ttl : 0 < ttl := Nat.lt_of_le_of_lt (Nat.zero_le t) ht
    have hdc1 : dnsSet 0 k v none (dnsInit m ttl) =
        ⟨m, ttl, [(k, v, 0 + ttl)], [], 0, 0⟩ := by
      simp [dnsSet, dnsInit, tcSet, tcExpire, List.drop_nil]
    rw [hdc1]
    have hexp : tcExpire 0 [(k, v, 0 + ttl)] = [(k, v, 0 + ttl)] := by
      simp [tcExpire, h0ttl]
    have hany : ([(k, v, 0 + ttl)].any (fun e => e.1 == k2)) = false := by
      simp [hk]
    have hdropn : (1 : Nat) + 1 - m = 0 := by omega
    have htc2 : tcSet 0 k2 v2 m ttl [(k, v, 0 + ttl)] =
        [(k, v, 0 + ttl), (k2, v2, 0 + ttl)] := by
      simp only [tcSet, hexp, hany, Bool.false_eq_true, if_false,
        List.length_cons, List.length_nil]
      rw [hdropn, List.drop_zero]
      rfl
    have hcf : (dnsSet 0 k2 v2 (some cttl)
        ⟨m, ttl, [(k, v, 0 + ttl)], [], 0, 0⟩).custom.find?
        (fun e => e.1 == k) = none := by
      simp only [dnsSet]
      by_cases hct : cttl = ttl
      · simp [hct]
      · simp only [ne_eq, hct, not_false_eq_true, if_true, List.filter_nil,
          List.nil_append]
        rw [find?_cons_eq, if_neg (by
          simp only [beq_iff_eq]
          exact fun hcon => hk hcon.symm)]
        rfl
    have htcache : (dnsSet 0 k2 v2 (some cttl)
        ⟨m, ttl, [(k, v, 0 + ttl)], [], 0, 0⟩).tcache =
        [(k, v, 0 + ttl), (k2, v2, 0 + ttl)] := by
      simp only [dnsSet]
      exact htc2
    simp only [dnsGet, hcf, dnsGetCore, tcGet, htcache, find?_cons_eq,
      if_pos (by simp : ((k, v, 0 + ttl).1 == k) = true)]
    rw [if_pos (by omega : t < 0 + ttl)]

/-- Witness for C3 amended: the spec's default-versus-custom example in
tenths of a second (default 3000, custom TTL 10, read at 11): the
default entry `"a"` still hits, and a short custom entry hits before its
own expiry; the direct evaluation shows `"b"` missing at 11. -/
theorem c3_amended_effective_expiry_is_min_witness :
    (dnsGet 11 "a"
      (dnsSet 0 "b" "2" (some 10)
        (dnsSet 0 "a" "1" none (dnsInit 1000 3000)))).1 = some "1" ∧
    (dnsGet 5 "b" (dnsSet 0 "b" "2" (some 10) (dnsInit 1000 3000))).1 =
      some "2" ∧
    (dnsGet 11 "b"
      (dnsSet 0 "b" "2" (some 10)
        (dnsSet 0 "a" "1" none (dnsInit 1000 3000)))).1 = none := by
  refine ⟨?_, ?_, by decide⟩
  · exact c3_amended_effective_expiry_is_min.2 1000 3000 "a" "b" "1" "2" 10 11
      (by decide) (by decide) (by decide)
  · exact c3_amended_effective_expiry_is_min.1 (dnsInit 1000 3000) "b" "2" 10 0 5
      (by decide)

/-! ## C4 -/

/-- Read semantics of the `TTLCache` layer of `DNSCache.get`: the value
comes back exactly for a live (unexpired) entry, the counters record the
outcome, and after a miss no live entry for the key remains. -/
theorem dnsGetCore_semantics (dc : DNSCache) (t : Nat) (k : String)
    (hndt : (dc.tcache.map (fun e => e.1)).Nodup) :
    (∀ v, (dnsGetCore t k dc).1 = some v ↔
      (∃ e ∈ dc.tcache, e.1 = k ∧ e.2.1 = v ∧ t < e.2.2)) ∧
    ((dnsGetCore t k dc).1 = none →
      (dnsGetCore t k dc).2.misses = dc.misses + 1 ∧
      (dnsGetCore t k dc).2.hits = dc.hits) ∧
    ((∃ v, (dnsGetCore t k dc).1 = some v) →
      (dnsGetCore t k dc).2.hits = dc.hits + 1 ∧
      (dnsGetCore t k dc).2.misses = dc.misses) ∧
    ((dnsGetCore t k dc).1 = none →
      ∀ e ∈ (dnsGetCore t k dc).2.tcache, e.1 = k → e.2.2 ≤ t) := by
  cases htg : dc.tcache.find? (fun e => e.1 == k) with
  | none =>
    have hres : dnsGetCore t k dc =
        (none, { dc with misses := dc.misses + 1 }) := by
      simp only [dnsGetCore, tcGet, htg]
    rw [hres]
    have hnok : ∀ e ∈ dc.tcache, e.1 = k → False := by
      intro e he hek
      have hke : (k, e.2) ∈ dc.tcache := by
        rw [← hek]
        exact he
      have := find?_key_of_nodup_mem hndt hke
      rw [htg] at this
      cases this
    refine ⟨?_, fun _ => ⟨rfl, rfl⟩, ?_, ?_⟩
    · intro v
      constructor
      · intro h
        cases h
      · rintro ⟨e, he, hek, _, _⟩
        exact absurd (hnok e he hek) (by simp)
    · rintro ⟨v, hv⟩
      cases hv
    · intro _ e he hek
      exact absurd (hnok e he hek) (by simp)
  | some e0 =>
    have he0mem := List.mem_of_find?_eq_some htg
    have he0k : e0.1 = k := by simpa using List.find?_some htg
    by_cases hlt : t < e0.2.2
    · have hres : dnsGetCore t k dc = (some e0.2.1, { dc with
          tcache := dc.tcache.filter (fun x => !(x.1 == k)) ++ [e0],
          hits := dc.hits + 1 }) := by
        simp only [dnsGetCore, tcGet, htg, if_pos hlt]
      rw [hres]
      refine ⟨?_, ?_, fun _ => ⟨rfl, rfl⟩, ?_⟩
      · intro v
        constructor
        · intro h
          have hv : e0.2.1 = v := by
            simpa using h
          exact ⟨e0, he0mem, he0k, hv, hlt⟩
        · rintro ⟨e, he, hek, hev, _⟩
          have : e = e0 :=
            key_eq_of_nodup hndt he he0mem (hek.trans he0k.symm)
          rw [← hev, this]
      · intro h
        cases h
      · intro h
        cases h
    · have hres : dnsGetCore t k dc = (none, { dc with
          tcache := dc.tcache.filter (fun x => !(x.1 == k)) ++ [e0],
          misses := dc.misses + 1 }) := by
        simp only [dnsGetCore, tcGet, htg, if_neg hlt]
      rw [hres]
      refine ⟨?_, fun _ => ⟨rfl, rfl⟩, ?_, ?_⟩
      · intro v
        constructor
        · intro h
          cases h
        · rintro ⟨e, he, hek, _, hlt2⟩
          have : e = e0 :=
            key_eq_of_nodup hndt he he0mem (hek.trans he0k.symm)
          rw [this] at hlt2
          exact absurd hlt2 hlt
      · rintro ⟨v, hv⟩
        cases hv
      · intro _ e he hek
        rcases List.mem_append.mp he with h1 | h2
        · have := (List.mem_filter.mp h1).2
          simp [hek] at this
        · have : e = e0 := by simpa using h2
          rw [this]
          omega

/-- C4: `get(k)` returns the stored value, with a hit recorded, exactly
when a live entry for `k` exists whose expiries (both the store's and
any custom one) are still in the future; otherwise it records a miss,
returns `none`, and no live entry for `k` remains afterwards — a value
past its expiry is never returned, and expired entries are dropped
lazily at read time. -/
theorem c4_get_hit_iff_live (dc : DNSCache) (t : Nat) (k : String)
    (hwf : WF dc) :
    (∀ v, (dnsGet t k dc).1 = some v ↔
      ((∃ e ∈ dc.tcache, e.1 = k ∧ e.2.1 = v ∧ t < e.2.2) ∧
       (∀ ce ∈ dc.custom, ce.1 = k → t < ce.2))) ∧
    ((dnsGet t k dc).1 = none →
      (dnsGet t k dc).2.misses = dc.misses + 1 ∧
      (dnsGet t k dc).2.hits = dc.hits) ∧
    ((∃ v, (dnsGet t k dc).1 = some v) →
      (dnsGet t k dc).2.hits = dc.hits + 1 ∧
      (dnsGet t k dc).2.misses = dc.misses) ∧
    ((dnsGet t k dc).1 = none →
      ∀ e ∈ (dnsGet t k dc).2.tcache, e.1 = k → e.2.2 ≤ t) := by
  obtain ⟨hndt, hndc⟩ := hwf
  cases hcf : dc.custom.find? (fun e => e.1 == k) with
  | some ce =>
    have hcemem := List.mem_of_find?_eq_some hcf
    have hcek : ce.1 = k := by simpa using List.find?_some hcf
    by_cases hexp : ce.2 ≤ t
    · have hres : dnsGet t k dc = (none, { dc with
          custom := dc.custom.filter (fun e => !(e.1 == k)),
          tcache := tcPop t k dc.tcache,
          misses := dc.misses + 1 }) := by
        simp only [dnsGet, hcf, if_pos hexp]
      rw [hres]
      refine ⟨?_, fun _ => ⟨rfl, rfl⟩, ?_, ?_⟩
      · intro v
        constructor
        · intro h
          cases h
        · rintro ⟨_, h2⟩
          have := h2 ce hcemem hcek
          omega
      · rintro ⟨v, hv⟩
        cases hv
      · intro _ e he hek
        unfold tcPop at he
        by_cases hcont : tcContains t k dc.tcache
        · rw [if_pos hcont] at he
          have := (List.mem_filter.mp he).2
          simp [hek] at this
        · rw [if_neg hcont] at he
          unfold tcContains at hcont
          cases htg : dc.tcache.find? (fun e => e.1 == k) with
          | none =>
            exfalso
            have hke : (k, e.2) ∈ dc.tcache := by
              rw [← hek]
              exact he
            have := find?_key_of_nodup_mem hndt hke
            rw [htg] at this
            cases this
          | some e1 =>
            rw [htg] at hcont
            simp only [decide_eq_true_eq] at hcont
            have he1k : e1.1 = k := by simpa using List.find?_some htg
            have : e = e1 := key_eq_of_nodup hndt he
              (List.mem_of_find?_eq_some htg) (hek.trans he1k.symm)
            rw [this]
            omega
    · have hres : dnsGet t k dc = dnsGetCore t k dc := by
        simp only [dnsGet, hcf, if_neg hexp]
      have hcustcond : ∀ ce2 ∈ dc.custom, ce2.1 = k → t < ce2.2 := by
        intro ce2 hm2 hk2
        have : ce2 = ce := key_eq_of_nodup hndc hm2 hcemem
          (hk2.trans hcek.symm)
        rw [this]
        omega
      obtain ⟨hA, hB, hC, hD⟩ := dnsGetCore_semantics dc t k hndt
      rw [hres]
      exact ⟨fun v => ⟨fun h => ⟨(hA v).mp h, hcustcond⟩,
        fun h => (hA v).mpr h.1⟩, hB, hC, hD⟩
  | none =>
    have hres : dnsGet t k dc = dnsGetCore t k dc := by
      simp only [dnsGet, hcf]
    have hcustcond : ∀ ce2 ∈ dc.custom, ce2.1 = k → t < ce2.2 := by
      intro ce2 hm2 hk2
      have := List.find?_eq_none.mp hcf ce2 hm2
      simp [hk2] at this
    obtain ⟨hA, hB, hC, hD⟩ := dnsGetCore_semantics dc t k hndt
    rw [hres]
    exact ⟨fun v => ⟨fun h => ⟨(hA v).mp h, hcustcond⟩,
      fun h => (hA v).mpr h.1⟩, hB, hC, hD⟩

/-- Witness for C4: a cache holding a live entry `("a","1")` expiring at
5 and an unrelated custom record for `"b"`; read at `t = 2` it hits, read
at `t = 7` it misses. -/
theorem c4_get_hit_iff_live_witness :
    WF ⟨10, 300, [("a", "1", 5)], [("b", 7)], 0, 0⟩ ∧
    ((dnsGet 2 "a" ⟨10, 300, [("a", "1", 5)], [("b", 7)], 0, 0⟩).1 = some "1" ↔
      ((∃ e ∈ ([("a", "1", 5)] : List TCEntry),
          e.1 = "a" ∧ e.2.1 = "1" ∧ 2 < e.2.2) ∧
       (∀ ce ∈ ([("b", 7)] : List (String × Nat)), ce.1 = "a" → 2 < ce.2))) ∧
    ((dnsGet 7 "a" ⟨10, 300, [("a", "1", 5)], [("b", 7)], 0, 0⟩).1 = some "1" ↔
      ((∃ e ∈ ([("a", "1", 5)] : List TCEntry),
          e.1 = "a" ∧ e.2.1 = "1" ∧ 7 < e.2.2) ∧
       (∀ ce ∈ ([("b", 7)] : List (String × Nat)), ce.1 = "a" → 7 < ce.2))) :=
  ⟨⟨by decide, by decide⟩,
   (c4_get_hit_iff_live ⟨10, 300, [("a", "1", 5)], [("b", 7)], 0, 0⟩ 2 "a"
     ⟨by decide, by decide⟩).1 "1",
   (c4_get_hit_iff_live ⟨10, 300, [("a", "1", 5)], [("b", 7)], 0, 0⟩ 7 "a"
     ⟨by decide, by decide⟩).1 "1"⟩

/-! ## C5 -/

theorem length_filter_lt_of_mem {α : Type} {p : α → Bool} {l : List α}
    {x : α} (hx : x ∈ l) (hpx : p x = false) :
    (l.filter p).length < l.length := by
  induction l with
  | nil => cases hx
  | cons a l ih =>
    rw [List.filter_cons]
    rcases List.mem_cons.mp hx with h1 | h2
    · rw [← h1, hpx, if_neg (by simp)]
      exact Nat.lt_succ_of_le (List.length_filter_le _ _)
    · by_cases hpa : p a = true
      · rw [if_pos hpa, List.length_cons]
        exact Nat.succ_lt_succ (ih h2)
      · rw [if_neg hpa]
        exact Nat.lt_succ_of_le (List.length_filter_le _ _)

theorem tcGet_snd_length_le (now : Nat) (k : String) (es : List TCEntry) :
    (tcGet now k es).2.length ≤ es.length := by
  unfold tcGet
  cases hf : es.find? (fun e => e.1 == k) with
  | none => exact Nat.le_refl _
  | some e =>
    have hek : e.1 = k := by simpa using List.find?_some hf
    have hlt : (es.filter (fun x => !(x.1 == k))).length < es.length :=
      length_filter_lt_of_mem (List.mem_of_find?_eq_some hf) (by simp [hek])
    have hmoved : (es.filter (fun x => !(x.1 == k)) ++ [e]).length ≤ es.length := by
      rw [List.length_append]
      simpa using hlt
    by_cases hc : now < e.2.2
    · simpa [hc] using hmoved
    · simpa [hc] using hmoved

theorem tcPop_length_le (now : Nat) (k : String) (es : List TCEntry) :
    (tcPop now k es).length ≤ es.length := by
  unfold tcPop
  by_cases hc : tcContains now k es
  · rw [if_pos hc]
    exact List.length_filter_le _ _
  · rw [if_neg hc]

theorem tcSet_length_le (now : Nat) (k v : String) (m ttl : Nat)
    (es : List TCEntry) (hm : 0 < m) (hlen : es.length ≤ m) :
    (tcSet now k v m ttl es).length ≤ m := by
  unfold tcSet
  have h1 : (tcExpire now es).length ≤ es.length := List.length_filter_le _ _
  by_cases hc : (tcExpire now es).any (fun e => e.1 == k)
  · rw [if_pos hc]
    obtain ⟨y, hy, hpy⟩ := List.any_eq_true.mp hc
    have h2 : ((tcExpire now es).filter (fun x => !(x.1 == k))).length <
        (tcExpire now es).length :=
      length_filter_lt_of_mem hy (by simp [hpy])
    rw [List.length_append]
    simp only [List.length_cons, List.length_nil]
    omega
  · rw [if_neg hc, List.length_append, List.length_drop]
    simp only [List.length_cons, List.length_nil]
    omega

theorem dnsGet_tcache_length_le (t : Nat) (k : String) (dc : DNSCache) :
    (dnsGet t k dc).2.tcache.length ≤ dc.tcache.length := by
  unfold dnsGet dnsGetCore
  cases hcf : dc.custom.find? (fun e => e.1 == k) with
  | some ce =>
    by_cases hce : ce.2 ≤ t
    · simp only [if_pos hce]
      exact tcPop_length_le t k dc.tcache
    · simp only [if_neg hce]
      cases htc : tcGet t k dc.tcache with
      | mk o tc1 =>
        have := tcGet_snd_length_le t k dc.tcache
        rw [htc] at this
        cases o <;> simpa using this
  | none =>
    cases htc : tcGet t k dc.tcache with
    | mk o tc1 =>
      have := tcGet_snd_length_le t k dc.tcache
      rw [htc] at this
      cases o <;> simpa using this

theorem applyOp_maxsize (dc : DNSCache) (op : CacheOp) :
    (applyOp dc op).maxsize = dc.maxsize := by
  cases op with
  | get t k => exact dnsGet_maxsize t k dc
  | set t k v ttl => rfl
  | reset => rfl

theorem applyOp_tcache_length (dc : DNSCache) (op : CacheOp)
    (hm : 0 < dc.maxsize) (h : dc.tcache.length ≤ dc.maxsize) :
    (applyOp dc op).tcache.length ≤ dc.maxsize := by
  cases op with
  | get t k => exact Nat.le_trans (dnsGet_tcache_length_le t k dc) h
  | set t k v ttl => exact tcSet_length_le t k v dc.maxsize dc.ttl dc.tcache hm h
  | reset => exact Nat.zero_le _

theorem runOps_tcache_length (ops : List CacheOp) (dc : DNSCache)
    (hm : 0 < dc.maxsize) (h : dc.tcache.length ≤ dc.maxsize) :
    (runOps dc ops).tcache.length ≤ (runOps dc ops).maxsize ∧
    (runOps dc ops).maxsize = dc.maxsize := by
  induction ops generalizing dc with
  | nil => exact ⟨h, rfl⟩
  | cons op ops ih =>
    have hstep := applyOp_tcache_length dc op hm h
    have hms := applyOp_maxsize dc op
    have := ih (applyOp dc op) (by rw [hms]; exact hm) (by rw [hms]; exact hstep)
    exact ⟨this.1, this.2.trans hms⟩

/-- C5: over every sequence of `get`/`set`/`reset` calls from a fresh
cache with `maxsize > 0`, the reported entry count never exceeds
`maxsize`; and a `set` of a fresh key into a full (all-live) cache evicts
exactly the LRU-front entry before appending the new one, leaving
exactly `maxsize` entries. -/
theorem c5_size_bound_and_single_eviction :
    (∀ (ops : List CacheOp) (m ttl t : Nat), 0 < m →
      statsTotal t (runOps (dnsInit m ttl) ops) ≤ m) ∧
    (∀ (t : Nat) (k v : String) (dc : DNSCache),
      0 < dc.maxsize → 0 < dc.ttl →
      tcExpire t dc.tcache = dc.tcache →
      dc.tcache.length = dc.maxsize →
      (∀ e ∈ dc.tcache, (e.1 == k) = false) →
      (dnsSet t k v none dc).tcache =
        dc.tcache.tail ++ [(k, v, t + dc.ttl)] ∧
      statsTotal t (dnsSet t k v none dc) = dc.maxsize) := by
  constructor
  · intro ops m ttl t hm
    obtain ⟨h1, h2⟩ := runOps_tcache_length ops (dnsInit m ttl) hm (by
      simp [dnsInit])
    calc statsTotal t (runOps (dnsInit m ttl) ops)
        ≤ (runOps (dnsInit m ttl) ops).tcache.length :=
          List.length_filter_le _ _
      _ ≤ (runOps (dnsInit m ttl) ops).maxsize := h1
      _ = m := by rw [h2]; rfl
  · intro t k v dc hm httl hlive hfull hfree
    have hlives : ∀ e ∈ dc.tcache, decide (t < e.2.2) = true :=
      List.filter_eq_self.mp hlive
    have hshape : (dnsSet t k v none dc).tcache =
        dc.tcache.tail ++ [(k, v, t + dc.ttl)] := by
      show tcSet t k v dc.maxsize dc.ttl dc.tcache = _
      unfold tcSet
      rw [hlive, if_neg (by
        rw [Bool.not_eq_true, List.any_eq_false]
        intro x hx
        simp [hfree x hx]), hfull]
      have hdrop : dc.maxsize + 1 - dc.maxsize = 1 := by omega
      rw [hdrop, List.drop_one]
    refine ⟨hshape, ?_⟩
    have htail : ∀ e ∈ dc.tcache.tail, decide (t < e.2.2) = true := by
      intro e he
      exact hlives e (List.tail_subset dc.tcache he)
    show (tcExpire t (dnsSet t k v none dc).tcache).length = dc.maxsize
    rw [hshape]
    unfold tcExpire
    rw [List.filter_append, List.filter_eq_self.mpr htail]
    have hnew : decide (t < t + dc.ttl) = true := by
      simp only [decide_eq_true_eq]
      omega
    have hsingle : List.filter (fun e => decide (t < e.2.2))
        [(k, v, t + dc.ttl)] = [(k, v, t + dc.ttl)] := by
      simp [hnew, httl]
    rw [hsingle, List.length_append, List.length_tail, hfull]
    simp only [List.length_cons, List.length_nil]
    omega

/-- Witness for C5: three inserts of distinct keys into a fresh cache of
capacity 2 leave exactly 2 live entries (the first key having been
evicted), and the direct run confirms the bound. -/
theorem c5_size_bound_and_single_eviction_witness :
    statsTotal 0 (runOps (dnsInit 2 300)
      [.set 0 "a" "1" none, .set 0 "b" "2" none, .set 0 "c" "3" none]) ≤ 2 ∧
    statsTotal 0 (runOps (dnsInit 2 300)
      [.set 0 "a" "1" none, .set 0 "b" "2" none, .set 0 "c" "3" none]) = 2 ∧
    statsKeys 0 (runOps (dnsInit 2 300)
      [.set 0 "a" "1" none, .set 0 "b" "2" none, .set 0 "c" "3" none]) =
      ["b", "c"] ∧
    (dnsSet 0 "c" "3" none ⟨2, 300, [("a", "1", 5), ("b", "2", 6)], [], 0, 0⟩).tcache =
      [("b", "2", 6), ("c", "3", 300)] := by
  refine ⟨c5_size_bound_and_single_eviction.1
    [.set 0 "a" "1" none, .set 0 "b" "2" none, .set 0 "c" "3" none]
    2 300 0 (by decide), by decide, by decide, ?_⟩
  have h := (c5_size_bound_and_single_eviction.2 0 "c" "3"
    ⟨2, 300, [("a", "1", 5), ("b", "2", 6)], [], 0, 0⟩
    (by decide) (by decide) (by decide) (by decide) (by decide)).1
  simpa using h

/-! ## Resolver facade helpers -/

/-- The value returned by `DNSCache.get`, as a pure formula over the two
maps: the custom-expiry gate first, then the TTL store. -/
theorem dnsGet_fst_formula (t : Nat) (k : String) (dc : DNSCache) :
    (dnsGet t k dc).1 =
      match dc.custom.find? (fun e => e.1 == k) with
      | some ce =>
        if ce.2 ≤ t then none
        else
          match dc.tcache.find? (fun e => e.1 == k) with
          | some e => if t < e.2.2 then some e.2.1 else none
          | none => none
      | none =>
        match dc.tcache.find? (fun e => e.1 == k) with
        | some e => if t < e.2.2 then some e.2.1 else none
        | none => none := by
  unfold dnsGet dnsGetCore tcGet
  cases hcf : dc.custom.find? (fun e => e.1 == k) with
  | some ce =>
    by_cases hce : ce.2 ≤ t
    · simp [hce]
    · simp only [if_neg hce]
      cases htg : dc.tcache.find? (fun e => e.1 == k) with
      | none => simp
      | some e => by_cases hlt : t < e.2.2 <;> simp [hlt]
  | none =>
    cases htg : dc.tcache.find? (fun e => e.1 == k) with
    | none => simp
    | some e => by_cases hlt : t < e.2.2 <;> simp [hlt]

/-- After `set(k, v)` at the default TTL, a read of `k` strictly before
`t0 + defaultTTL` (with no operation in between) returns `v`. -/
theorem dnsGet_after_set_default (dc : DNSCache) (k v : String) (t0 t : Nat)
    (ht : t < t0 + dc.ttl) :
    (dnsGet t k (dnsSet t0 k v none dc)).1 = some v := by
  obtain ⟨es2, hes2, hfree⟩ :=
    tcSet_shape t0 k v dc.maxsize dc.ttl dc.tcache
  have hcf : (dnsSet t0 k v none dc).custom.find? (fun e => e.1 == k) =
      none := find?_filter_self_none k dc.custom
  have hfind : (dnsSet t0 k v none dc).tcache.find? (fun e => e.1 == k) =
      some (k, v, t0 + dc.ttl) := by
    show (tcSet t0 k v dc.maxsize dc.ttl dc.tcache).find?
      (fun e => e.1 == k) = _
    rw [hes2]
    exact find?_snoc_self k (v, t0 + dc.ttl) hfree
  rw [dnsGet_fst_formula, hcf, hfind]
  simp [ht]

/-- `_get_ip_address` on a non-truthy cache answer: the resolver decides
the outcome, the successful address is stored at the default TTL, and
the resolver is invoked exactly once. -/
theorem getIpAddress_on_miss (r : String → Option String) (t : Nat)
    (k : String) (dc : DNSCache)
    (hmiss : truthy (dnsGet t k dc).1 = false) :
    getIpAddress r t k dc =
      match r k with
      | some ip => (.ok ip, dnsSet t k ip none (dnsGet t k dc).2, 1)
      | none => (.error (), (dnsGet t k dc).2, 1) := by
  have hpair : dnsGet t k dc = ((dnsGet t k dc).1, (dnsGet t k dc).2) :=
    Prod.mk.eta.symm
  rw [getIpAddress, hpair]
  simp only [hmiss, Bool.false_eq_true, if_false]

/-- `_get_ip_address` on a truthy cache answer: the cached address comes
back and the resolver is not consulted. -/
theorem getIpAddress_on_hit (r : String → Option String) (t : Nat)
    (k ip : String) (dc : DNSCache)
    (hhit : (dnsGet t k dc).1 = some ip) (hip : ip ≠ "") :
    getIpAddress r t k dc = (.ok ip, (dnsGet t k dc).2, 0) := by
  have hpair : dnsGet t k dc = (some ip, (dnsGet t k dc).2) := by
    rw [← hhit]
  have htr : truthy (some ip) = true := by
    show (!ip.isEmpty) = true
    cases hemp : ip.isEmpty
    · rfl
    · exact absurd ((String.isEmpty_iff ip).mp hemp) hip
  rw [getIpAddress, hpair]
  simp [htr]

/-! ## C10 -/

/-- C10: a cached empty-string address is a non-absent cache answer, yet
the Python truthiness test `if ip_address:` treats it as a miss, so
`_get_ip_address` invokes the external resolution capability anyway and
its answer (not the cached value) decides the outcome. -/
theorem c10_falsy_cached_value_resolves_again (r : String → Option String)
    (dc : DNSCache) (t : Nat) (k : String)
    (h : (dnsGet t k dc).1 = some "") :
    (getIpAddress r t k dc).2.2 = 1 ∧
    (∀ ip, r k = some ip →
      getIpAddress r t k dc = (.ok ip, dnsSet t k ip none (dnsGet t k dc).2, 1)) ∧
    (r k = none →
      getIpAddress r t k dc = (.error (), (dnsGet t k dc).2, 1)) := by
  have hmiss : truthy (dnsGet t k dc).1 = false := by
    rw [h]
    rfl
  have hg := getIpAddress_on_miss r t k dc hmiss
  refine ⟨?_, ?_, ?_⟩
  · rw [hg]
    cases hr : r k <;> rfl
  · intro ip hr
    rw [hg, hr]
  · intro hr
    rw [hg, hr]

/-- Witness for C10: after caching the empty string for `"n"`, the cache
answer is `some ""` (not absent), and the resolver is invoked once, its
answer being returned. -/
theorem c10_falsy_cached_value_resolves_again_witness :
    (dnsGet 1 "n" (dnsSet 0 "n" "" none (dnsInit 10 300))).1 = some "" ∧
    (getIpAddress (fun _ => some "1.2.3.4") 1 "n"
      (dnsSet 0 "n" "" none (dnsInit 10 300))).2.2 = 1 ∧
    (getIpAddress (fun _ => some "1.2.3.4") 1 "n"
      (dnsSet 0 "n" "" none (dnsInit 10 300))).1 = .ok "1.2.3.4" := by
  have h : (dnsGet 1 "n" (dnsSet 0 "n" "" none (dnsInit 10 300))).1 =
      some "" := by decide
  obtain ⟨h1, h2, _⟩ := c10_falsy_cached_value_resolves_again
    (fun _ => some "1.2.3.4") (dnsSet 0 "n" "" none (dnsInit 10 300)) 1 "n" h
  exact ⟨h, h1, by rw [h2 "1.2.3.4" rfl]⟩

/-! ## C6 -/

/-- C6: a name whose (non-empty) address is live in the cache is served
without invoking the resolution capability.  End to end: a first resolve
on a cold name invokes the resolver once and caches the address; a
second resolve before the default TTL elapses performs zero further
invocations and returns the same zone. -/
theorem c6_second_resolve_uses_cache (r : String → Option String)
    (tbl : List RangeRec) (dc : DNSCache) (k ip : String) (t t2 : Nat)
    (hmiss : (dnsGet t k dc).1 = none)
    (hr : r k = some ip) (hip : ip ≠ "")
    (ht2 : t2 < t + dc.ttl) :
    (resolveName r tbl t k dc).2.2 = 1 ∧
    (resolveName r tbl t2 k (resolveName r tbl t k dc).2.1).2.2 = 0 ∧
    (resolveName r tbl t2 k (resolveName r tbl t k dc).2.1).1 =
      (resolveName r tbl t k dc).1 ∧
    (∀ d, getZoneData tbl ip = some d →
      (resolveName r tbl t k dc).1 = .zone d) := by
  have hmiss2 : truthy (dnsGet t k dc).1 = false := by
    rw [hmiss]
    rfl
  have hip1 : getIpAddress r t k dc =
      (.ok ip, dnsSet t k ip none (dnsGet t k dc).2, 1) := by
    rw [getIpAddress_on_miss r t k dc hmiss2, hr]
  have hres1 : resolveName r tbl t k dc =
      ((match getZoneData tbl ip with
        | some d => ResolutionResult.zone d
        | none => ResolutionResult.notFound),
       dnsSet t k ip none (dnsGet t k dc).2, 1) := by
    rw [resolveName, hip1]
    cases hz : getZoneData tbl ip <;> simp [hz]
  have hget2 : (dnsGet t2 k (dnsSet t k ip none (dnsGet t k dc).2)).1 =
      some ip := by
    apply dnsGet_after_set_default
    rw [dnsGet_ttl]
    exact ht2
  have hip2 : getIpAddress r t2 k (dnsSet t k ip none (dnsGet t k dc).2) =
      (.ok ip, (dnsGet t2 k (dnsSet t k ip none (dnsGet t k dc).2)).2, 0) :=
    getIpAddress_on_hit r t2 k ip _ hget2 hip
  have hsnd : (resolveName r tbl t k dc).2.1 =
      dnsSet t k ip none (dnsGet t k dc).2 := by
    rw [hres1]
  have hres2 : resolveName r tbl t2 k (resolveName r tbl t k dc).2.1 =
      ((match getZoneData tbl ip with
        | some d => ResolutionResult.zone d
        | none => ResolutionResult.notFound),
       (dnsGet t2 k (dnsSet t k ip none (dnsGet t k dc).2)).2, 0) := by
    rw [hsnd, resolveName, hip2]
    cases hz : getZoneData tbl ip <;> simp [hz]
  refine ⟨by rw [hres1], by rw [hres2], by rw [hres2, hres1], ?_⟩
  intro d hd
  rw [hres1]
  simp only [hd]

/-- Witness for C6: the spec's end-to-end example — a stub resolver maps
`"db.example.com"` to `192.168.1.1`; the first resolve invokes it once
and yields `zoneB`, the immediate second resolve performs zero
invocations and yields the same result. -/
theorem c6_second_resolve_uses_cache_witness :
    (resolveName (fun s => if s = "db.example.com"
        then some "192.168.1.1" else none)
      specTable 0 "db.example.com" (dnsInit 1000 300)).2.2 = 1 ∧
    (resolveName (fun s => if s = "db.example.com"
        then some "192.168.1.1" else none)
      specTable 1 "db.example.com"
      ((resolveName (fun s => if s = "db.example.com"
          then some "192.168.1.1" else none)
        specTable 0 "db.example.com" (dnsInit 1000 300)).2.1)).2.2 = 0 ∧
    (resolveName (fun s => if s = "db.example.com"
        then some "192.168.1.1" else none)
      specTable 0 "db.example.com" (dnsInit 1000 300)).1 =
      .zone ⟨"zoneB", "idB"⟩ := by
  obtain ⟨h1, h2, _, h4⟩ := c6_second_resolve_uses_cache
    (fun s => if s = "db.example.com" then some "192.168.1.1" else none)
    specTable (dnsInit 1000 300) "db.example.com" "192.168.1.1" 0 1
    (by decide) (by decide) (by decide) (by decide)
  exact ⟨h1, h2, h4 ⟨"zoneB", "idB"⟩ (by decide)⟩

/-! ## C7 -/

theorem tcGet_snd_find? (t : Nat) (k k2 : String) (es : List TCEntry) :
    (tcGet t k es).2.find? (fun x => x.1 == k2) =
      es.find? (fun x => x.1 == k2) := by
  cases htg : es.find? (fun e => e.1 == k) with
  | none =>
    have h2 : (tcGet t k es).2 = es := by
      unfold tcGet
      rw [htg]
    rw [h2]
  | some e0 =>
    have he0k : e0.1 = k := by simpa using List.find?_some htg
    have h2 : (tcGet t k es).2 = es.filter (fun x => !(x.1 == k)) ++ [e0] := by
      unfold tcGet
      rw [htg]
      by_cases hlt : t < e0.2.2 <;> simp [hlt]
    rw [h2]
    by_cases hk2 : k2 = k
    · subst hk2
      have he0 : e0 = (k2, e0.2) := by
        rw [← he0k]
      rw [List.find?_append, find?_filter_self_none]
      rw [Option.none_or, he0, find?_cons_eq, if_pos (by simp), htg, he0]
    · rw [List.find?_append, find?_filter_ne k k2 hk2]
      have hnone : List.find? (fun x => x.1 == k2) [e0] = none := by
        rw [find?_cons_eq, if_neg (by
          simp only [beq_iff_eq, he0k]
          exact fun hc => hk2 hc.symm)]
        rfl
      rw [hnone, Option.or_none]

theorem tcPop_find?_ne (t : Nat) (k k2 : String) (h : k2 ≠ k)
    (es : List TCEntry) :
    (tcPop t k es).find? (fun x => x.1 == k2) =
      es.find? (fun x => x.1 == k2) := by
  unfold tcPop
  by_cases hc : tcContains t k es
  · rw [if_pos hc]
    exact find?_filter_ne k k2 h es
  · rw [if_neg hc]

theorem dnsGetCore_snd_fields (t : Nat) (k : String) (dc : DNSCache) :
    (dnsGetCore t k dc).2.custom = dc.custom ∧
    (dnsGetCore t k dc).2.tcache = (tcGet t k dc.tcache).2 := by
  unfold dnsGetCore
  cases htc : tcGet t k dc.tcache with
  | mk o tc1 => cases o <;> simp

/-- A read mutates the cache only through the lazy-expiry bookkeeping of
the key it touches: the value any read at the same instant returns is
unchanged. -/
theorem dnsGet_snd_get_fst (t : Nat) (k k2 : String) (dc : DNSCache) :
    (dnsGet t k2 (dnsGet t k dc).2).1 = (dnsGet t k2 dc).1 := by
  rw [dnsGet_fst_formula, dnsGet_fst_formula]
  cases hcf : dc.custom.find? (fun e => e.1 == k) with
  | some ce =>
    by_cases hce : ce.2 ≤ t
    · have hcust : (dnsGet t k dc).2.custom =
          dc.custom.filter (fun e => !(e.1 == k)) := by
        simp only [dnsGet, hcf, if_pos hce]
      have htca : (dnsGet t k dc).2.tcache = tcPop t k dc.tcache := by
        simp only [dnsGet, hcf, if_pos hce]
      rw [hcust, htca]
      by_cases hk2 : k2 = k
      · subst hk2
        rw [find?_filter_self_none, hcf]
        simp only [if_pos hce]
        unfold tcPop
        by_cases hcont : tcContains t k2 dc.tcache
        · rw [if_pos hcont, find?_filter_self_none]
        · rw [if_neg hcont]
          unfold tcContains at hcont
          cases htg : dc.tcache.find? (fun e => e.1 == k2) with
          | none => rfl
          | some e1 =>
            rw [htg] at hcont
            simp only [decide_eq_true_eq] at hcont
            simp [hcont]
      · rw [find?_filter_ne k k2 hk2, tcPop_find?_ne t k k2 hk2]
    · have h2 : (dnsGet t k dc).2 = (dnsGetCore t k dc).2 := by
        simp only [dnsGet, hcf, if_neg hce]
      obtain ⟨hcu, htc⟩ := dnsGetCore_snd_fields t k dc
      rw [h2, hcu, htc, tcGet_snd_find? t k k2 dc.tcache]
  | none =>
    have h2 : (dnsGet t k dc).2 = (dnsGetCore t k dc).2 := by
      simp only [dnsGet, hcf]
    obtain ⟨hcu, htc⟩ := dnsGetCore_snd_fields t k dc
    rw [h2, hcu, htc, tcGet_snd_find? t k k2 dc.tcache]

/-- C7: when the external resolution capability fails for a name that
the cache cannot serve, the lookup answers with the `resolutionFailed`
outcome as a value (the `socket.gaierror` is caught by the handler), the
resolver was invoked exactly once, no entry was stored — the value any
read returns is exactly what it was before — and an immediately
following resolve of the same name attempts resolution again. -/
theorem c7_resolution_failure_not_cached (r : String → Option String)
    (tbl : List RangeRec) (dc : DNSCache) (t : Nat) (k : String)
    (hr : r k = none)
    (hmiss : truthy (dnsGet t k dc).1 = false) :
    (resolveName r tbl t k dc).1 = .resolutionFailed ∧
    (resolveName r tbl t k dc).2.2 = 1 ∧
    (∀ k2, (dnsGet t k2 (resolveName r tbl t k dc).2.1).1 =
      (dnsGet t k2 dc).1) ∧
    (resolveName r tbl t k (resolveName r tbl t k dc).2.1).2.2 = 1 := by
  have hip1 : getIpAddress r t k dc = (.error (), (dnsGet t k dc).2, 1) := by
    rw [getIpAddress_on_miss r t k dc hmiss, hr]
  have hres : resolveName r tbl t k dc =
      (.resolutionFailed, (dnsGet t k dc).2, 1) := by
    rw [resolveName, hip1]
  have hstable : ∀ k2, (dnsGet t k2 (resolveName r tbl t k dc).2.1).1 =
      (dnsGet t k2 dc).1 := by
    intro k2
    rw [hres]
    exact dnsGet_snd_get_fst t k k2 dc
  refine ⟨by rw [hres], by rw [hres], hstable, ?_⟩
  have hmiss2 : truthy (dnsGet t k (resolveName r tbl t k dc).2.1).1 = false := by
    rw [hstable k]
    exact hmiss
  have hip2 : getIpAddress r t k (resolveName r tbl t k dc).2.1 =
      (.error (), (dnsGet t k (resolveName r tbl t k dc).2.1).2, 1) := by
    rw [getIpAddress_on_miss r t k _ hmiss2, hr]
  rw [resolveName, hip2]

/-- Witness for C7: a failing resolver on a cache that (expired entry
for the very name included) cannot serve `"x"`: the outcome is
`resolutionFailed` with one invocation, reads are unaffected, and a
second resolve invokes the resolver again. -/
theorem c7_resolution_failure_not_cached_witness :
    (resolveName (fun _ => none) specTable 5 "x"
      ⟨10, 300, [("x", "9.9.9.9", 3), ("y", "1.1.1.1", 99)], [], 0, 0⟩).1 =
      .resolutionFailed ∧
    (resolveName (fun _ => none) specTable 5 "x"
      ⟨10, 300, [("x", "9.9.9.9", 3), ("y", "1.1.1.1", 99)], [], 0, 0⟩).2.2 =
      1 ∧
    (dnsGet 5 "y" (resolveName (fun _ => none) specTable 5 "x"
      ⟨10, 300, [("x", "9.9.9.9", 3), ("y", "1.1.1.1", 99)], [], 0, 0⟩).2.1).1 =
      (dnsGet 5 "y"
        ⟨10, 300, [("x", "9.9.9.9", 3), ("y", "1.1.1.1", 99)], [], 0, 0⟩).1 ∧
    (resolveName (fun _ => none) specTable 5 "x"
      (resolveName (fun _ => none) specTable 5 "x"
        ⟨10, 300, [("x", "9.9.9.9", 3), ("y", "1.1.1.1", 99)], [], 0, 0⟩).2.1).2.2 =
      1 := by
  obtain ⟨h1, h2, h3, h4⟩ := c7_resolution_failure_not_cached
    (fun _ => none) specTable
    ⟨10, 300, [("x", "9.9.9.9", 3), ("y", "1.1.1.1", 99)], [], 0, 0⟩
    5 "x" rfl (by decide)
  exact ⟨h1, h2, h3 "y", h4⟩

/-! ## C2 -/

/-- C2 counterexample: resolving the syntactically invalid name
"not a hostname!" does not yield `invalidInput` — the handler performs
no syntactic validation.  The cache *is* consulted (its miss counter is
bumped) and the external resolution capability *is* invoked (once); with
a failing resolver the outcome is `resolutionFailed` (served as 404
"FQDN not found"). -/
theorem c2_no_validation_counterexample :
    (resolveName (fun _ => none) specTable 0 "not a hostname!"
      (dnsInit 1000 300)).1 = .resolutionFailed ∧
    (resolveName (fun _ => none) specTable 0 "not a hostname!"
      (dnsInit 1000 300)).1 ≠ .invalidInput ∧
    (resolveName (fun _ => none) specTable 0 "not a hostname!"
      (dnsInit 1000 300)).2.2 = 1 ∧
    (dnsGet 0 "not a hostname!" (dnsInit 1000 300)).2.misses =
      (dnsInit 1000 300).misses + 1 := by
  refine ⟨by decide, by decide, by decide, by decide⟩

/-- C2 amended: the handler never validates the looked-up name.  Any
name the cache cannot serve — syntactically invalid ones included — is
passed to the external resolution capability (exactly one invocation),
whose answer alone determines the outcome: `resolutionFailed` on
failure, otherwise the zone lookup's verdict on the returned address;
an `invalidInput` outcome is never produced. -/
theorem c2_amended_no_syntactic_validation (r : String → Option String)
    (tbl : List RangeRec) (dc : DNSCache) (t : Nat) (k : String)
    (hmiss : truthy (dnsGet t k dc).1 = false) :
    (resolveName r tbl t k dc).2.2 = 1 ∧
    (r k = none → (resolveName r tbl t k dc).1 = .resolutionFailed) ∧
    (∀ ip, r k = some ip → getZoneData tbl ip = none →
      (resolveName r tbl t k dc).1 = .notFound) ∧
    (∀ ip d, r k = some ip → getZoneData tbl ip = some d →
      (resolveName r tbl t k dc).1 = .zone d) ∧
    (resolveName r tbl t k dc).1 ≠ .invalidInput := by
  have hg := getIpAddress_on_miss r t k dc hmiss
  cases hrk : r k with
  | none =>
    have hip : getIpAddress r t k dc = (.error (), (dnsGet t k dc).2, 1) := by
      rw [hg, hrk]
    have hres : resolveName r tbl t k dc =
        (.resolutionFailed, (dnsGet t k dc).2, 1) := by
      rw [resolveName, hip]
    refine ⟨by rw [hres], fun _ => by rw [hres], ?_, ?_, by rw [hres]; simp⟩
    · intro ip hip2
      cases hip2
    · intro ip d hip2
      cases hip2
  | some ip0 =>
    have hip : getIpAddress r t k dc =
        (.ok ip0, dnsSet t k ip0 none (dnsGet t k dc).2, 1) := by
      rw [hg, hrk]
    cases hz : getZoneData tbl ip0 with
    | none =>
      have hres : resolveName r tbl t k dc =
          (.notFound, dnsSet t k ip0 none (dnsGet t k dc).2, 1) := by
        rw [resolveName, hip]
        simp [hz]
      refine ⟨by rw [hres], ?_, ?_, ?_, by rw [hres]; simp⟩
      · intro hc
        cases hc
      · intro ip hip2 _
        cases hip2
        rw [hres]
      · intro ip d hip2 hzd
        cases hip2
        rw [hz] at hzd
        cases hzd
    | some d0 =>
      have hres : resolveName r tbl t k dc =
          (.zone d0, dnsSet t k ip0 none (dnsGet t k dc).2, 1) := by
        rw [resolveName, hip]
        simp [hz]
      refine ⟨by rw [hres], ?_, ?_, ?_, by rw [hres]; simp⟩
      · intro hc
        cases hc
      · intro ip hip2 hzd
        cases hip2
        rw [hz] at hzd
        cases hzd
      · intro ip d hip2 hzd
        cases hip2
        rw [hz] at hzd
        cases hzd
        rw [hres]

/-- Witness for C2 amended: a resolver that answers the invalid name
"not a hostname!" with `192.168.33.1` leads, with no validation in the
way, to one invocation and the `zoneA` outcome. -/
theorem c2_amended_no_syntactic_validation_witness :
    (resolveName (fun _ => some "192.168.33.1") specTable 0
      "not a hostname!" (dnsInit 1000 300)).2.2 = 1 ∧
    (resolveName (fun _ => some "192.168.33.1") specTable 0
      "not a hostname!" (dnsInit 1000 300)).1 = .zone ⟨"zoneA", "idA"⟩ := by
  obtain ⟨h1, _, _, h4, _⟩ := c2_amended_no_syntactic_validation
    (fun _ => some "192.168.33.1") specTable (dnsInit 1000 300) 0
    "not a hostname!" (by decide)
  exact ⟨h1, h4 "192.168.33.1" ⟨"zoneA", "idA"⟩ rfl (by decide)⟩

end AZP
